import Mathlib

/-!
# Task manager backend (`src/backend/server.js`)

A shallow embedding of the four Express route handlers of `server.js` over an
explicit store state, together with the part of Mongoose / MongoDB they call
(`new Task`, `save`, `find().sort`, `findById`, `findByIdAndDelete`,
`ObjectId.isValid`, the `String` cast and the `enum` validator of `taskSchema`).

The store is the list of documents of the `tasks` collection in natural
(insertion) order.  One request runs at a time.  The two values a create
request takes from its environment, the `ObjectId` generated by `new Task` and
the clock reading `Date.now()`, are explicit arguments.  Infrastructure
failures of the database connection are not modelled.
-/

namespace Todoist

/-! ## JavaScript values -/

/-- JSON values as parsed by `express.json()`; `undefined` is what reading a
property that the body does not name gives.  A number is a double; it is held
as the two things the handlers observe of it: whether it is zero (the only
falsy numbers JSON can write are `0` and `-0`) and the text its `toString()`
gives, so `1e21` is `num false "1e+21"` and `0.5` is `num false "0.5"`. -/
inductive JsVal where
  | undefined
  | null
  | bool (b : Bool)
  | num (zero : Bool) (text : String)
  | str (s : String)
  | arr (xs : List JsVal)
  | obj (fs : List (String × JsVal))

/-- JavaScript truthiness, the test made by `||` on its left operand. -/
def JsVal.truthy : JsVal → Bool
  | .undefined => false
  | .null => false
  | .bool b => b
  | .num zero _ => !zero
  | .str s => s != ""
  | .arr _ => true
  | .obj _ => true

/-- The JavaScript expression `a || b`. -/
def JsVal.or (a b : JsVal) : JsVal :=
  if a.truthy then a else b

/-- The parsed request body `req.body`: the properties of a JSON object. -/
abbrev Body := List (String × JsVal)

/-- Property read `req.body.k`; `undefined` when the body does not name `k`. -/
def Body.get (body : Body) (k : String) : JsVal :=
  (body.lookup k).getD .undefined

/-! ## Identifiers -/

/-- A MongoDB `ObjectId`: its twelve bytes. -/
abbrev ObjectId := List Nat

/-- Value of a hexadecimal digit. -/
def hexVal (c : Char) : Option Nat :=
  if 48 ≤ c.toNat ∧ c.toNat ≤ 57 then some (c.toNat - 48)
  else if 97 ≤ c.toNat ∧ c.toNat ≤ 102 then some (c.toNat - 87)
  else if 65 ≤ c.toNat ∧ c.toNat ≤ 70 then some (c.toNat - 55)
  else none

/-- Bytes written by a string of hexadecimal digit pairs. -/
def fromHex : List Char → Option (List Nat)
  | [] => some []
  | [_] => none
  | a :: b :: rest =>
    match hexVal a, hexVal b, fromHex rest with
    | some x, some y, some r => some ((16 * x + y) :: r)
    | _, _, _ => none

/-- UTF-16 code units of a character (JavaScript strings are sequences of them). -/
def utf16Units (c : Char) : List Nat :=
  if c.toNat < 65536 then [c.toNat]
  else [55296 + (c.toNat - 65536) / 1024, 56320 + (c.toNat - 65536) % 1024]

/-- Code units of a JavaScript string; its `length` is the length of this list. -/
def jsUnits (s : String) : List Nat :=
  (s.data.map utf16Units).flatten

/-- The driver's `new ObjectId(id)` on a string: a string of 24 hexadecimal
characters gives the bytes it writes, a string of 12 characters gives its
character codes, every other string throws (`none`). -/
def ObjectId.ofString (id : String) : Option ObjectId :=
  if (jsUnits id).length = 24 then fromHex id.data
  else if (jsUnits id).length = 12 then some (jsUnits id)
  else none

/-- Format check `mongoose.Types.ObjectId.isValid(id)` on a string. -/
def ObjectId.isValid (id : String) : Bool :=
  (ObjectId.ofString id).isSome

/-! ## The schema and the documents -/

/-- Value held by a path of schema type `String`: missing, `null` or a string. -/
inductive Field where
  | undefined
  | null
  | str (s : String)
  deriving DecidableEq, Repr

/-- Reading a `String` path of a document as a JavaScript value. -/
def Field.toJs : Field → JsVal
  | .undefined => .undefined
  | .null => .null
  | .str s => .str s

/-- Mongoose's cast to `String`: `null` and `undefined` pass through, a string
is kept, a boolean or number is written with `toString()`, an object with a
non-empty string `_id` is replaced by it, and arrays and other objects are a
`CastError` (`none`). -/
def castString : JsVal → Option Field
  | .undefined => some .undefined
  | .null => some .null
  | .str s => some (.str s)
  | .bool b => some (.str (if b then "true" else "false"))
  | .num _ text => some (.str text)
  | .arr _ => none
  | .obj fs =>
    match fs.lookup "_id" with
    | some (.str s) => if s != "" then some (.str s) else none
    | _ => none

/-- `taskSchema.status.enum`. -/
def taskSchema.statusEnum : List String := ["pending", "completed"]

/-- `taskSchema.status.default`. -/
def taskSchema.statusDefault : String := "pending"

/-- A stored task: the paths of `taskSchema` and the `_id` Mongoose adds.
`createdAt` is a `Date`, in milliseconds since the epoch. -/
structure Task where
  _id : ObjectId
  title : Field
  description : Field
  status : Field
  createdAt : Int
  deriving DecidableEq, Repr

/-- The `tasks` collection, in natural order. -/
abbrev Store := List Task

/-- A failure recorded against one path of a document. -/
inductive PathError where
  | cast (path : String)
  | enum (path : String) (value : Field)
  deriving DecidableEq, Repr

/-- Errors thrown by the model's operations. -/
inductive StoreError where
  | castObjectId (value : String)
  | validation (errors : List PathError)
  | duplicateKey (id : ObjectId)
  deriving DecidableEq, Repr

/-- A Mongoose document in memory: the task, the cast errors its setters have
recorded, and whether it was built by `new Task` (and is not yet stored). -/
structure Doc extends Task where
  errors : List PathError
  isNew : Bool
  deriving DecidableEq, Repr

/-- Assignment `task.title = v` through the schema setter. -/
def Doc.setTitle (d : Doc) (v : JsVal) : Doc :=
  match castString v with
  | some f => { d with title := f }
  | none => { d with errors := d.errors ++ [.cast "title"] }

/-- Assignment `task.description = v` through the schema setter. -/
def Doc.setDescription (d : Doc) (v : JsVal) : Doc :=
  match castString v with
  | some f => { d with description := f }
  | none => { d with errors := d.errors ++ [.cast "description"] }

/-- Assignment `task.status = v` through the schema setter. -/
def Doc.setStatus (d : Doc) (v : JsVal) : Doc :=
  match castString v with
  | some f => { d with status := f }
  | none => { d with errors := d.errors ++ [.cast "status"] }

/-- The `enum` validator of `status`: validators are not run on `undefined`,
and any other value has to be one of the listed strings. -/
def enumValid : Field → Bool
  | .undefined => true
  | .null => false
  | .str s => taskSchema.statusEnum.contains s

/-- The errors `validate()` finds: the recorded cast errors, and the `enum`
failure of `status` unless that path already has a cast error. -/
def Doc.validate (d : Doc) : List PathError :=
  d.errors ++
    (if d.errors.contains (.cast "status") then []
     else if enumValid d.status then []
     else [.enum "status" d.status])

/-- The document `new Task({ title, description })`: the two values go through
the `String` setters, `status` and `createdAt` take their schema defaults
(`'pending'` and `Date.now()`), and `_id` is the generated identifier. -/
def Task.new (gen : ObjectId) (now : Int) (title description : JsVal) : Doc :=
  let d : Doc :=
    { _id := gen, title := .undefined, description := .undefined,
      status := .str taskSchema.statusDefault, createdAt := now,
      errors := [], isNew := true }
  (d.setTitle title).setDescription description

/-- A document loaded from the store. -/
def Task.hydrate (t : Task) : Doc :=
  { t with errors := [], isNew := false }

/-- The write `updateOne({ _id })`: the first document with that `_id` is replaced. -/
def updateOne (t : Task) : Store → Store
  | [] => []
  | u :: rest => if u._id = t._id then t :: rest else u :: updateOne t rest

/-- The write `deleteOne({ _id })`: the first document with that `_id` is removed. -/
def deleteOne (oid : ObjectId) : Store → Store
  | [] => []
  | u :: rest => if u._id = oid then rest else u :: deleteOne oid rest

/-- The method `task.save()`: a document that fails validation is rejected with a
`ValidationError` and nothing is written; a new document is inserted, and the
unique index on `_id` rejects an identifier already in the collection; a loaded
document overwrites its stored version.  The saved task is returned. -/
def Doc.save (d : Doc) (db : Store) : Except StoreError (Task × Store) :=
  if d.validate ≠ [] then .error (.validation d.validate)
  else if d.isNew then
    if d._id ∈ db.map Task._id then .error (.duplicateKey d._id)
    else .ok (d.toTask, db ++ [d.toTask])
  else .ok (d.toTask, updateOne d.toTask db)

/-- The query `Task.find().sort({ createdAt: -1 })`: every document, newest first. -/
def Task.findSorted (db : Store) : Except StoreError (List Task) :=
  .ok (db.insertionSort (fun a b => b.createdAt ≤ a.createdAt))

/-- The query `Task.findById(id)`: the id is cast to an `ObjectId` (a `CastError`
when it is malformed) and the document with that `_id`, if any, is loaded. -/
def Task.findById (db : Store) (id : String) : Except StoreError (Option Doc) :=
  match ObjectId.ofString id with
  | none => .error (.castObjectId id)
  | some oid => .ok ((db.find? (fun t => t._id = oid)).map Task.hydrate)

/-- The query `Task.findByIdAndDelete(id)`: casts the id and removes the document
with that `_id`. -/
def Task.findByIdAndDelete (db : Store) (id : String) : Except StoreError Store :=
  match ObjectId.ofString id with
  | none => .error (.castObjectId id)
  | some oid => .ok (deleteOne oid db)

/-! ## Responses -/

/-- The `message` property of a response: a literal of `server.js`, or the
`error.message` of a caught error. -/
inductive Message where
  | text (s : String)
  | ofError (e : StoreError)
  deriving DecidableEq, Repr

/-- The JSON payload handed to `res.json`. -/
inductive ResBody where
  | tasks (ts : List Task)
  | task (t : Task)
  | message (m : Message)
  | deleted (message : String) (taskId : String)
  | failure (message : String) (error : StoreError)
  deriving DecidableEq, Repr

/-- An HTTP response: status code (200 when `res.status` is not called) and payload. -/
structure Response where
  status : Nat
  body : ResBody
  deriving DecidableEq, Repr

/-- A call made on the `Task` model. -/
inductive StoreCall where
  | find
  | findById (id : String)
  | save (id : ObjectId)
  | findByIdAndDelete (id : String)
  deriving DecidableEq, Repr

/-- What handling one request produces: the response, the store afterwards and
the model calls made, in order. -/
structure Outcome where
  res : Response
  store : Store
  calls : List StoreCall
  deriving DecidableEq, Repr

/-! ## The route handlers -/

/-- Handler of `app.get('/api/tasks')`. -/
def getTasks (db : Store) : Outcome :=
  match Task.findSorted db with
  | .ok tasks => ⟨⟨200, .tasks tasks⟩, db, [.find]⟩
  | .error error => ⟨⟨500, .message (.ofError error)⟩, db, [.find]⟩

/-- Handler of `app.post('/api/tasks')`; `gen` and `now` are the identifier and
the clock reading that building the document takes from the environment. -/
def postTask (db : Store) (gen : ObjectId) (now : Int) (body : Body) : Outcome :=
  let task := Task.new gen now (body.get "title") (body.get "description")
  match task.save db with
  | .ok (newTask, db') => ⟨⟨201, .task newTask⟩, db', [.save gen]⟩
  | .error error => ⟨⟨400, .message (.ofError error)⟩, db, [.save gen]⟩

/-- Handler of `app.put('/api/tasks/:id')`. -/
def putTask (db : Store) (id : String) (body : Body) : Outcome :=
  match Task.findById db id with
  | .error error => ⟨⟨400, .message (.ofError error)⟩, db, [.findById id]⟩
  | .ok none => ⟨⟨404, .message (.text "Task not found")⟩, db, [.findById id]⟩
  | .ok (some task) =>
    let task := task.setTitle ((body.get "title").or task.title.toJs)
    let task := task.setDescription ((body.get "description").or task.description.toJs)
    let task := task.setStatus ((body.get "status").or task.status.toJs)
    match task.save db with
    | .ok (updatedTask, db') => ⟨⟨200, .task updatedTask⟩, db', [.findById id, .save task._id]⟩
    | .error error => ⟨⟨400, .message (.ofError error)⟩, db, [.findById id, .save task._id]⟩

/-- Handler of `app.delete('/api/tasks/:id')`. -/
def deleteTask (db : Store) (id : String) : Outcome :=
  let taskId := id
  if !ObjectId.isValid taskId then
    ⟨⟨400, .message (.text "Invalid task ID")⟩, db, []⟩
  else
    match Task.findById db taskId with
    | .error error => ⟨⟨500, .failure "Error deleting task" error⟩, db, [.findById taskId]⟩
    | .ok none => ⟨⟨404, .message (.text "Task not found")⟩, db, [.findById taskId]⟩
    | .ok (some _) =>
      match Task.findByIdAndDelete db taskId with
      | .error error =>
        ⟨⟨500, .failure "Error deleting task" error⟩, db,
          [.findById taskId, .findByIdAndDelete taskId]⟩
      | .ok db' =>
        ⟨⟨200, .deleted "Task deleted successfully" taskId⟩, db',
          [.findById taskId, .findByIdAndDelete taskId]⟩

/-- The value an update assigns to a `String` path that holds `old` when the body
gives `b` for it: the cast of `b || old`. -/
def mergeField (b : JsVal) (old : Field) : Option Field :=
  castString (b.or old.toJs)

/-- The document `putTask` hands to `save` when `findById` loaded the task `t`:
the three assignments of the handler applied to the loaded document. -/
def putDoc (t : Task) (body : Body) : Doc :=
  let task := Task.hydrate t
  let task := task.setTitle ((body.get "title").or task.title.toJs)
  let task := task.setDescription ((body.get "description").or task.description.toJs)
  task.setStatus ((body.get "status").or task.status.toJs)

/-- Store states reachable from the empty collection by create, update and
delete requests with arbitrary arguments. -/
inductive Reachable : Store → Prop where
  | empty : Reachable []
  | post (db : Store) (gen : ObjectId) (now : Int) (body : Body) :
      Reachable db → Reachable (postTask db gen now body).store
  | put (db : Store) (id : String) (body : Body) :
      Reachable db → Reachable (putTask db id body).store
  | delete (db : Store) (id : String) :
      Reachable db → Reachable (deleteTask db id).store

/-! ## Concrete data used by the examples -/

/-- The identifier written `"aaaaaaaaaaaaaaaaaaaaaaaa"`. -/
def oidA : ObjectId := List.replicate 12 170

/-- The identifier written `"bbbbbbbbbbbbbbbbbbbbbbbb"`. -/
def oidB : ObjectId := List.replicate 12 187

/-- A pending task with identifier `oidA`. -/
def taskA : Task :=
  { _id := oidA, title := .str "A", description := .str "B",
    status := .str "pending", createdAt := 1 }

/-- A completed task with identifier `oidB`. -/
def taskB : Task :=
  { _id := oidB, title := .str "C", description := .str "D",
    status := .str "completed", createdAt := 2 }

/-- An update body naming a title, an empty description and, as status, an
object whose `_id` is the string "completed". -/
def mergeBody : Body :=
  [("title", .str "T"), ("description", .str ""),
    ("status", .obj [("_id", .str "completed")])]

/-! ## Facts about the model's operations -/

theorem castString_toJs (f : Field) : castString f.toJs = some f := by
  cases f <;> rfl

theorem or_eq_right {a b : JsVal} (h : a.truthy = false) : a.or b = b := by
  simp [JsVal.or, h]

theorem or_eq_left {a b : JsVal} (h : a.truthy = true) : a.or b = a := by
  simp [JsVal.or, h]

theorem map_id_updateOne (t : Task) (db : Store) :
    (updateOne t db).map Task._id = db.map Task._id := by
  induction db with
  | nil => rfl
  | cons u rest ih =>
    unfold updateOne
    split
    · next h => simp [h]
    · simp [ih]

theorem find_updateOne (t t1 : Task) (db : Store)
    (h : db.find? (fun u => u._id = t1._id) = some t) :
    (updateOne t1 db).find? (fun u => u._id = t1._id) = some t1 := by
  induction db with
  | nil => simp at h
  | cons u rest ih =>
    unfold updateOne
    by_cases hu : u._id = t1._id
    · simp [hu]
    · simp [hu, List.find?_cons] at h ⊢
      exact ih h

theorem updateOne_idem (t : Task) (db : Store) :
    updateOne t (updateOne t db) = updateOne t db := by
  induction db with
  | nil => rfl
  | cons u rest ih =>
    by_cases hu : u._id = t._id
    · simp [updateOne, hu]
    · simp [updateOne, hu, ih]

theorem updateOne_self {db : Store} {t : Task}
    (hfind : db.find? (fun v => v._id = t._id) = some t) : updateOne t db = db := by
  induction db with
  | nil => rfl
  | cons v rest ih =>
    by_cases hv : v._id = t._id
    · simp only [List.find?_cons, hv, decide_True, Option.some.injEq] at hfind
      subst hfind
      simp [updateOne]
    · simp only [List.find?_cons, hv, decide_False] at hfind
      simp [updateOne, hv, ih hfind]

theorem find_id_eq {db : Store} {oid : ObjectId} {t : Task}
    (h : db.find? (fun u => u._id = oid) = some t) : t._id = oid := by
  have := List.find?_some h
  simpa using this

theorem deleteOne_eq_filter (oid : ObjectId) (db : Store) (hnd : (db.map Task._id).Nodup) :
    deleteOne oid db = db.filter (fun u => decide (u._id ≠ oid)) := by
  induction db with
  | nil => rfl
  | cons u rest ih =>
    simp only [List.map_cons, List.nodup_cons] at hnd
    by_cases hu : u._id = oid
    · have hall : ∀ v ∈ rest, v._id ≠ oid := by
        intro v hv hvo
        exact hnd.1 (List.mem_map.2 ⟨v, hv, by rw [hvo, hu]⟩)
      simp only [deleteOne, hu, if_true, List.filter_cons, ne_eq, not_true_eq_false,
        decide_False]
      symm
      simpa [List.filter_eq_self] using hall
    · simp [deleteOne, hu, ih hnd.2]

theorem find_none_of_not_mem (oid : ObjectId) (db : Store) (h : oid ∉ db.map Task._id) :
    db.find? (fun u => u._id = oid) = none := by
  simp only [List.find?_eq_none, decide_eq_true_eq]
  intro u hu huo
  exact h (List.mem_map.2 ⟨u, hu, huo⟩)

/-! ## Listing -/

/-- Claim C6: for every store state, `GET /api/tasks` answers 200 with a
sequence that is a permutation of the stored tasks and in which `createdAt`
never increases from one entry to a later one; the store is left as it was, and
for the empty store the answer is the empty sequence with status 200. -/
theorem getTasks_sorted_perm (db : Store) :
    ∃ ts : List Task,
      (getTasks db).res = ⟨200, .tasks ts⟩ ∧
      ts.Perm db ∧
      ts.Pairwise (fun a b => b.createdAt ≤ a.createdAt) ∧
      (getTasks db).store = db ∧
      (getTasks []).res = ⟨200, .tasks []⟩ := by
  refine ⟨db.insertionSort (fun a b => b.createdAt ≤ a.createdAt), rfl, ?_, ?_, rfl, rfl⟩
  · exact List.perm_insertionSort _ db
  · have : IsTotal Task (fun a b => b.createdAt ≤ a.createdAt) :=
      ⟨fun a b => le_total b.createdAt a.createdAt⟩
    have : IsTrans Task (fun a b => b.createdAt ≤ a.createdAt) :=
      ⟨fun a b c hab hbc => le_trans hbc hab⟩
    exact List.sorted_insertionSort (fun a b => b.createdAt ≤ a.createdAt) db

/-! ## Deleting -/

/-- Claim C4: for every store state and every id that fails the format check,
`DELETE /api/tasks/:id` answers 400 with the message "Invalid task ID" (not the
404 of a missing task), makes no call on the model and leaves the store as it
was. -/
theorem deleteTask_invalid_id (db : Store) (id : String)
    (h : ObjectId.isValid id = false) :
    (deleteTask db id).res = ⟨400, .message (.text "Invalid task ID")⟩ ∧
      (deleteTask db id).res.status ≠ 404 ∧
      (deleteTask db id).calls = [] ∧
      (deleteTask db id).store = db := by
  simp [deleteTask, h]

theorem deleteTask_invalid_id_witness :
    ObjectId.isValid "not-a-valid-id" = false ∧
      (deleteTask [taskA] "not-a-valid-id").res = ⟨400, .message (.text "Invalid task ID")⟩ ∧
      (deleteTask [taskA] "not-a-valid-id").res.status ≠ 404 ∧
      (deleteTask [taskA] "not-a-valid-id").calls = [] ∧
      (deleteTask [taskA] "not-a-valid-id").store = [taskA] :=
  ⟨by decide, deleteTask_invalid_id [taskA] "not-a-valid-id" (by decide)⟩

theorem findById_of_find {db : Store} {id : String} {oid : ObjectId}
    (hid : ObjectId.ofString id = some oid) :
    Task.findById db id = .ok ((db.find? (fun u => u._id = oid)).map Task.hydrate) := by
  simp [Task.findById, hid]

theorem find_of_mem_nodup {db : Store} {t : Task} (hnd : (db.map Task._id).Nodup)
    (ht : t ∈ db) : db.find? (fun u => u._id = t._id) = some t := by
  induction db with
  | nil => simp at ht
  | cons u rest ih =>
    simp only [List.map_cons, List.nodup_cons] at hnd
    rcases List.mem_cons.1 ht with rfl | hmem
    · simp
    · have hne : u._id ≠ t._id := by
        intro hu
        exact hnd.1 (List.mem_map.2 ⟨t, hmem, hu.symm⟩)
      simp [List.find?_cons, hne, ih hnd.2 hmem]

theorem findById_not_found {db : Store} {id : String} {oid : ObjectId}
    (hid : ObjectId.ofString id = some oid)
    (hnone : db.find? (fun u => u._id = oid) = none) :
    Task.findById db id = .ok none := by
  rw [findById_of_find hid, hnone]
  rfl

theorem deleteTask_not_found {db : Store} {id : String} {oid : ObjectId}
    (hid : ObjectId.ofString id = some oid)
    (hnone : db.find? (fun u => u._id = oid) = none) :
    (deleteTask db id).res = ⟨404, .message (.text "Task not found")⟩ := by
  have hvalid : ObjectId.isValid id = true := by simp [ObjectId.isValid, hid]
  simp only [deleteTask, hvalid, findById_not_found hid hnone]
  rfl

theorem putTask_not_found {db : Store} {id : String} {oid : ObjectId} (body : Body)
    (hid : ObjectId.ofString id = some oid)
    (hnone : db.find? (fun u => u._id = oid) = none) :
    (putTask db id body).res = ⟨404, .message (.text "Task not found")⟩ := by
  simp only [putTask, findById_not_found hid hnone]

/-- Claim C5: in a store whose identifiers are pairwise distinct, for a stored
task `t` addressed by the id `i`, `DELETE /api/tasks/i` answers 200 with
`taskId` equal to `i` and removes exactly `t`, keeping every other task in
place; in the resulting store a second `DELETE /api/tasks/i` answers 404, the
lookup made by update finds nothing, and `PUT /api/tasks/i` answers 404. -/
theorem deleteTask_then_not_found (db : Store) (t : Task) (i : String) (body : Body)
    (hnd : (db.map Task._id).Nodup) (ht : t ∈ db)
    (hi : ObjectId.ofString i = some t._id) :
    (deleteTask db i).res = ⟨200, .deleted "Task deleted successfully" i⟩ ∧
      (deleteTask db i).store = db.filter (fun u => decide (u ≠ t)) ∧
      (deleteTask (deleteTask db i).store i).res =
        ⟨404, .message (.text "Task not found")⟩ ∧
      Task.findById (deleteTask db i).store i = .ok none ∧
      (putTask (deleteTask db i).store i body).res =
        ⟨404, .message (.text "Task not found")⟩ := by
  have hfind := find_of_mem_nodup hnd ht
  have hvalid : ObjectId.isValid i = true := by simp [ObjectId.isValid, hi]
  have hfilter : db.filter (fun u => decide (u._id ≠ t._id)) =
      db.filter (fun u => decide (u ≠ t)) := by
    apply List.filter_congr
    intro u hu
    by_cases hut : u = t
    · simp [hut]
    · have : u._id ≠ t._id := by
        intro hid
        have h1 := find_of_mem_nodup hnd hu
        rw [hid, hfind] at h1
        exact hut (Option.some.inj h1).symm
      simp [hut, this]
  have hstore : (deleteTask db i).store = db.filter (fun u => decide (u ≠ t)) := by
    rw [← hfilter, ← deleteOne_eq_filter t._id db hnd]
    simp [deleteTask, hvalid, findById_of_find hi, hfind, Task.findByIdAndDelete, hi]
  have hgone : (db.filter (fun u => decide (u ≠ t))).find? (fun u => u._id = t._id) = none := by
    rw [← hfilter]
    simp only [List.find?_eq_none, decide_eq_true_eq, List.mem_filter]
    intro u hu
    simpa using hu.2
  refine ⟨?_, hstore, ?_, ?_, ?_⟩
  · simp [deleteTask, hvalid, findById_of_find hi, hfind, Task.findByIdAndDelete, hi]
  · rw [hstore]
    exact deleteTask_not_found hi hgone
  · rw [hstore]
    exact findById_not_found hi hgone
  · rw [hstore]
    exact putTask_not_found body hi hgone

theorem deleteTask_then_not_found_witness :
    (deleteTask [taskA, taskB] "aaaaaaaaaaaaaaaaaaaaaaaa").res =
        ⟨200, .deleted "Task deleted successfully" "aaaaaaaaaaaaaaaaaaaaaaaa"⟩ ∧
      (deleteTask [taskA, taskB] "aaaaaaaaaaaaaaaaaaaaaaaa").store =
        [taskA, taskB].filter (fun u => decide (u ≠ taskA)) ∧
      (deleteTask (deleteTask [taskA, taskB] "aaaaaaaaaaaaaaaaaaaaaaaa").store
          "aaaaaaaaaaaaaaaaaaaaaaaa").res =
        ⟨404, .message (.text "Task not found")⟩ ∧
      Task.findById (deleteTask [taskA, taskB] "aaaaaaaaaaaaaaaaaaaaaaaa").store
          "aaaaaaaaaaaaaaaaaaaaaaaa" = .ok none ∧
      (putTask (deleteTask [taskA, taskB] "aaaaaaaaaaaaaaaaaaaaaaaa").store
          "aaaaaaaaaaaaaaaaaaaaaaaa" [("title", .str "x")]).res =
        ⟨404, .message (.text "Task not found")⟩ :=
  deleteTask_then_not_found [taskA, taskB] taskA "aaaaaaaaaaaaaaaaaaaaaaaa"
    [("title", .str "x")] (by decide) (by decide) (by decide)

/-! ## Creating -/

theorem postTask_of_cast (db : Store) (gen : ObjectId) (now : Int) (body : Body)
    (ft fd : Field) (hfresh : gen ∉ db.map Task._id)
    (ht : castString (body.get "title") = some ft)
    (hd : castString (body.get "description") = some fd) :
    postTask db gen now body =
      ⟨⟨201, .task ⟨gen, ft, fd, .str "pending", now⟩⟩,
        db ++ [⟨gen, ft, fd, .str "pending", now⟩], [.save gen]⟩ := by
  have hfresh2 : ∀ u ∈ db, ¬ u._id = gen := by
    intro u hu hug
    exact hfresh (List.mem_map.2 ⟨u, hu, hug⟩)
  have hfresh3 : ¬ ∃ a ∈ db, a._id = gen := by
    rintro ⟨u, hu, hug⟩
    exact hfresh2 u hu hug
  simp only [postTask, Task.new, Doc.setTitle, Doc.setDescription, ht, hd, Doc.save,
    Doc.validate, enumValid, taskSchema.statusEnum, taskSchema.statusDefault]
  simp [hfresh3]

theorem postTask_of_duplicate (db : Store) (gen : ObjectId) (now : Int) (body : Body)
    (ft fd : Field) (hdup : gen ∈ db.map Task._id)
    (ht : castString (body.get "title") = some ft)
    (hd : castString (body.get "description") = some fd) :
    postTask db gen now body =
      ⟨⟨400, .message (.ofError (.duplicateKey gen))⟩, db, [.save gen]⟩ := by
  have hdup2 : ∃ a ∈ db, a._id = gen := by
    obtain ⟨u, hu, hug⟩ := List.mem_map.1 hdup
    exact ⟨u, hu, hug⟩
  simp only [postTask, Task.new, Doc.setTitle, Doc.setDescription, ht, hd, Doc.save,
    Doc.validate, enumValid, taskSchema.statusEnum, taskSchema.statusDefault]
  simp [hdup2]

/-- Claim C7, refuted as stated: when the identifier generated for the new
document is that of a task already stored, the create request with title "A"
and description "B" is answered 400 (duplicate key), not 201, and the store is
left as it was. -/
theorem postTask_duplicate_id_rejected :
    (postTask [taskA] oidA 5 [("title", .str "A"), ("description", .str "B")]).res =
        ⟨400, .message (.ofError (.duplicateKey oidA))⟩ ∧
      (postTask [taskA] oidA 5 [("title", .str "A"), ("description", .str "B")]).res.status ≠
        201 ∧
      (postTask [taskA] oidA 5 [("title", .str "A"), ("description", .str "B")]).store =
        [taskA] := by
  decide

/-- Claim C7, amended: for every store state, strings `A` and `B` and body whose
title is `A` and description is `B` (whatever else the body names),
`POST /api/tasks` answers 201 exactly when the identifier generated for the new
document is not the id of a task already stored. In that case the response
carries the task of title `A`, description `B` and status "pending", that task
is appended to the store, and looking its id up in the resulting store returns
that same task. When the generated identifier is already in the store the
answer is 400 and the store is unchanged. So a task answered with 201 never has
the id of a task that was already in the store. -/
theorem postTask_roundtrip (db : Store) (gen : ObjectId) (now : Int) (body : Body)
    (A B : String)
    (hA : body.get "title" = .str A) (hB : body.get "description" = .str B) :
    ((postTask db gen now body).res.status = 201 ↔ gen ∉ db.map Task._id) ∧
      (gen ∉ db.map Task._id →
        (postTask db gen now body).res =
            ⟨201, .task ⟨gen, .str A, .str B, .str "pending", now⟩⟩ ∧
          (postTask db gen now body).store =
            db ++ [⟨gen, .str A, .str B, .str "pending", now⟩] ∧
          (∀ i : String, ObjectId.ofString i = some gen →
            Task.findById (postTask db gen now body).store i =
              .ok (some (Task.hydrate ⟨gen, .str A, .str B, .str "pending", now⟩)))) ∧
      (gen ∈ db.map Task._id →
        (postTask db gen now body).res = ⟨400, .message (.ofError (.duplicateKey gen))⟩ ∧
          (postTask db gen now body).store = db) ∧
      (∀ r : Task, (postTask db gen now body).res = ⟨201, .task r⟩ →
        ∀ u ∈ db, u._id ≠ r._id) := by
  have hcA : castString (body.get "title") = some (.str A) := by rw [hA]; rfl
  have hcB : castString (body.get "description") = some (.str B) := by rw [hB]; rfl
  by_cases hfresh : gen ∈ db.map Task._id
  · have hpost := postTask_of_duplicate db gen now body (.str A) (.str B) hfresh hcA hcB
    rw [hpost]
    refine ⟨?_, fun h => absurd hfresh h, fun _ => ⟨rfl, rfl⟩, ?_⟩
    · constructor
      · intro h
        simp at h
      · intro h
        exact absurd hfresh h
    · intro r hr
      simp at hr
  · have hpost := postTask_of_cast db gen now body (.str A) (.str B) hfresh hcA hcB
    rw [hpost]
    refine ⟨⟨fun _ => hfresh, fun _ => rfl⟩, ?_, fun h => absurd h hfresh, ?_⟩
    · intro _
      refine ⟨rfl, rfl, ?_⟩
      intro i hi
      rw [findById_of_find hi]
      simp only [List.find?_append, find_none_of_not_mem gen db hfresh]
      simp
    · intro r hr u hu hur
      simp only [Response.mk.injEq, ResBody.task.injEq, true_and] at hr
      subst hr
      exact hfresh (List.mem_map.2 ⟨u, hu, hur⟩)

theorem postTask_roundtrip_witness :
    ((postTask [taskA] oidB 5
        [("title", .str "A"), ("description", .str "B"), ("status", .str "completed")]).res.status
          = 201 ↔ oidB ∉ [taskA].map Task._id) ∧
      (oidB ∉ [taskA].map Task._id →
        (postTask [taskA] oidB 5
          [("title", .str "A"), ("description", .str "B"), ("status", .str "completed")]).res =
            ⟨201, .task ⟨oidB, .str "A", .str "B", .str "pending", 5⟩⟩ ∧
          (postTask [taskA] oidB 5
          [("title", .str "A"), ("description", .str "B"), ("status", .str "completed")]).store =
            [taskA] ++ [⟨oidB, .str "A", .str "B", .str "pending", 5⟩] ∧
          (∀ i : String, ObjectId.ofString i = some oidB →
            Task.findById (postTask [taskA] oidB 5
              [("title", .str "A"), ("description", .str "B"),
                ("status", .str "completed")]).store i =
              .ok (some (Task.hydrate ⟨oidB, .str "A", .str "B", .str "pending", 5⟩)))) ∧
      (oidB ∈ [taskA].map Task._id →
        (postTask [taskA] oidB 5
          [("title", .str "A"), ("description", .str "B"), ("status", .str "completed")]).res =
            ⟨400, .message (.ofError (.duplicateKey oidB))⟩ ∧
          (postTask [taskA] oidB 5
          [("title", .str "A"), ("description", .str "B"), ("status", .str "completed")]).store =
            [taskA]) ∧
      (∀ r : Task, (postTask [taskA] oidB 5
          [("title", .str "A"), ("description", .str "B"), ("status", .str "completed")]).res =
            ⟨201, .task r⟩ →
        ∀ u ∈ [taskA], u._id ≠ r._id) :=
  postTask_roundtrip [taskA] oidB 5
    [("title", .str "A"), ("description", .str "B"), ("status", .str "completed")]
    "A" "B" rfl rfl

/-- Claim C2, refuted as stated: a create request whose body has a description
and no title is answered 201, not 400, and a task is added to the empty store. -/
theorem postTask_missing_title_accepted :
    Body.get [("description", .str "B")] "title" = .undefined ∧
      (postTask [] oidA 1 [("description", .str "B")]).res =
        ⟨201, .task ⟨oidA, .undefined, .str "B", .str "pending", 1⟩⟩ ∧
      (postTask [] oidA 1 [("description", .str "B")]).res.status ≠ 400 ∧
      (postTask [] oidA 1 [("description", .str "B")]).store =
        [⟨oidA, .undefined, .str "B", .str "pending", 1⟩] :=
  ⟨rfl, by decide, by decide, by decide⟩

/-- Claim C2, amended: the schema has no required path, so for every create
request whose body lacks title or lacks description, whose supplied value (if
any) casts to a string and whose generated identifier is new to the store,
`POST /api/tasks` answers 201 and appends one task with status "pending", the
field the body lacks being undefined in it. -/
theorem postTask_missing_field (db : Store) (gen : ObjectId) (now : Int) (body : Body)
    (hfresh : gen ∉ db.map Task._id)
    (hmiss : body.get "title" = .undefined ∨ body.get "description" = .undefined)
    (ht : castString (body.get "title") ≠ none)
    (hd : castString (body.get "description") ≠ none) :
    ∃ t : Task,
      (postTask db gen now body).res = ⟨201, .task t⟩ ∧
      (postTask db gen now body).store = db ++ [t] ∧
      t.status = .str "pending" ∧
      castString (body.get "title") = some t.title ∧
      castString (body.get "description") = some t.description ∧
      (t.title = .undefined ∨ t.description = .undefined) := by
  obtain ⟨ft, hft⟩ := Option.ne_none_iff_exists'.1 ht
  obtain ⟨fd, hfd⟩ := Option.ne_none_iff_exists'.1 hd
  have hpost := postTask_of_cast db gen now body ft fd hfresh hft hfd
  refine ⟨⟨gen, ft, fd, .str "pending", now⟩, by rw [hpost], by rw [hpost], rfl, hft, hfd, ?_⟩
  rcases hmiss with h | h
  · left
    rw [h] at hft
    exact (Option.some.inj hft).symm
  · right
    rw [h] at hfd
    exact (Option.some.inj hfd).symm

theorem postTask_missing_field_witness :
    ∃ t : Task,
      (postTask [taskA] oidB 5 [("description", .str "B")]).res = ⟨201, .task t⟩ ∧
      (postTask [taskA] oidB 5 [("description", .str "B")]).store = [taskA] ++ [t] ∧
      t.status = .str "pending" ∧
      castString (Body.get [("description", .str "B")] "title") = some t.title ∧
      castString (Body.get [("description", .str "B")] "description") = some t.description ∧
      (t.title = .undefined ∨ t.description = .undefined) :=
  postTask_missing_field [taskA] oidB 5 [("description", .str "B")]
    (by decide) (Or.inl rfl) (by decide) (by decide)

/-! ## Updating -/

theorem putTask_found {db : Store} {id : String} {oid : ObjectId} {t : Task} (body : Body)
    (hid : ObjectId.ofString id = some oid)
    (hfind : db.find? (fun u => u._id = oid) = some t) :
    putTask db id body =
      match (putDoc t body).save db with
      | .ok (updatedTask, db') =>
        ⟨⟨200, .task updatedTask⟩, db', [.findById id, .save (putDoc t body)._id]⟩
      | .error error =>
        ⟨⟨400, .message (.ofError error)⟩, db, [.findById id, .save (putDoc t body)._id]⟩ := by
  simp only [putTask, findById_of_find hid, hfind, Option.map_some']
  rfl

theorem mergeField_falsy {b : JsVal} (old : Field) (h : b.truthy = false) :
    mergeField b old = some old := by
  rw [mergeField, or_eq_right h, castString_toJs]

theorem mergeField_truthy {b : JsVal} (old : Field) (h : b.truthy = true) :
    mergeField b old = castString b := by
  rw [mergeField, or_eq_left h]

theorem castString_truthy_str {v : JsVal} {f : Field} (hv : v.truthy = true)
    (hc : castString v = some f) : ∃ s, f = .str s := by
  cases v with
  | undefined => simp [JsVal.truthy] at hv
  | null => simp [JsVal.truthy] at hv
  | bool b => exact ⟨_, (Option.some.inj hc).symm⟩
  | num z x => exact ⟨_, (Option.some.inj hc).symm⟩
  | str s => exact ⟨_, (Option.some.inj hc).symm⟩
  | arr xs => simp [castString] at hc
  | obj fs =>
    simp only [castString] at hc
    split at hc
    · split at hc
      · exact ⟨_, (Option.some.inj hc).symm⟩
      · simp at hc
    · simp at hc

theorem mergeField_idem {b : JsVal} {old f : Field} (h : mergeField b old = some f) :
    mergeField b f = some f := by
  cases hb : b.truthy with
  | true => rw [mergeField_truthy _ hb] at h ⊢; exact h
  | false =>
    rw [mergeField_falsy _ hb] at h
    rw [mergeField_falsy _ hb]

theorem putDoc_ok {t : Task} {body : Body} {ft fd fs : Field}
    (hT : mergeField (body.get "title") t.title = some ft)
    (hD : mergeField (body.get "description") t.description = some fd)
    (hS : mergeField (body.get "status") t.status = some fs) :
    putDoc t body = ⟨⟨t._id, ft, fd, fs, t.createdAt⟩, [], false⟩ := by
  simp only [mergeField] at hT hD hS
  simp only [putDoc, Task.hydrate, Doc.setTitle, Doc.setDescription, Doc.setStatus, hT, hD, hS]

theorem putDoc_frame (t : Task) (body : Body) :
    (putDoc t body)._id = t._id ∧ (putDoc t body).createdAt = t.createdAt ∧
      (putDoc t body).isNew = false := by
  simp only [putDoc, Task.hydrate, Doc.setTitle, Doc.setDescription, Doc.setStatus]
  repeat' split
  all_goals exact ⟨rfl, rfl, rfl⟩

theorem putDoc_errors (t : Task) (body : Body) (h : (putDoc t body).errors = []) :
    ∃ ft fd fs, mergeField (body.get "title") t.title = some ft ∧
      mergeField (body.get "description") t.description = some fd ∧
      mergeField (body.get "status") t.status = some fs := by
  simp only [putDoc, Task.hydrate, Doc.setTitle, Doc.setDescription, Doc.setStatus] at h
  simp only [mergeField]
  cases hT : castString ((body.get "title").or t.title.toJs) <;>
    cases hD : castString ((body.get "description").or t.description.toJs) <;>
    cases hS : castString ((body.get "status").or t.status.toJs) <;>
    simp [hT, hD, hS] at h ⊢

theorem putDoc_save_ok {t : Task} {body : Body} {ft fd fs : Field} (db : Store)
    (hT : mergeField (body.get "title") t.title = some ft)
    (hD : mergeField (body.get "description") t.description = some fd)
    (hS : mergeField (body.get "status") t.status = some fs)
    (hE : enumValid fs = true) :
    (putDoc t body).save db =
      .ok (⟨t._id, ft, fd, fs, t.createdAt⟩, updateOne ⟨t._id, ft, fd, fs, t.createdAt⟩ db) := by
  rw [putDoc_ok hT hD hS]
  simp [Doc.save, Doc.validate, hE]

theorem putDoc_save_cases (t : Task) (body : Body) (db : Store) :
    (∃ e, (putDoc t body).save db = .error e) ∨
      ∃ ft fd fs, mergeField (body.get "title") t.title = some ft ∧
        mergeField (body.get "description") t.description = some fd ∧
        mergeField (body.get "status") t.status = some fs ∧
        enumValid fs = true ∧
        (putDoc t body).save db =
          .ok (⟨t._id, ft, fd, fs, t.createdAt⟩,
            updateOne ⟨t._id, ft, fd, fs, t.createdAt⟩ db) := by
  by_cases hv : (putDoc t body).validate = []
  · right
    have herr : (putDoc t body).errors = [] := by
      unfold Doc.validate at hv
      exact (List.append_eq_nil.1 hv).1
    obtain ⟨ft, fd, fs, hT, hD, hS⟩ := putDoc_errors t body herr
    have hE : enumValid fs = true := by
      rw [putDoc_ok hT hD hS] at hv
      simp only [Doc.validate, List.nil_append] at hv
      by_contra hne
      simp [hne] at hv
    exact ⟨ft, fd, fs, hT, hD, hS, hE, putDoc_save_ok db hT hD hS hE⟩
  · left
    exact ⟨.validation (putDoc t body).validate, by simp [Doc.save, hv]⟩

theorem putTask_ok {db : Store} {id : String} {oid : ObjectId} {t : Task} {body : Body}
    {ft fd fs : Field}
    (hid : ObjectId.ofString id = some oid)
    (hfind : db.find? (fun u => u._id = oid) = some t)
    (hT : mergeField (body.get "title") t.title = some ft)
    (hD : mergeField (body.get "description") t.description = some fd)
    (hS : mergeField (body.get "status") t.status = some fs)
    (hE : enumValid fs = true) :
    putTask db id body =
      ⟨⟨200, .task ⟨t._id, ft, fd, fs, t.createdAt⟩⟩,
        updateOne ⟨t._id, ft, fd, fs, t.createdAt⟩ db, [.findById id, .save t._id]⟩ := by
  rw [putTask_found body hid hfind, putDoc_save_ok db hT hD hS hE, (putDoc_frame t body).1]

theorem putTask_cases {db : Store} {id : String} {oid : ObjectId} {t : Task} (body : Body)
    (hid : ObjectId.ofString id = some oid)
    (hfind : db.find? (fun u => u._id = oid) = some t) :
    (∃ e, putTask db id body =
        ⟨⟨400, .message (.ofError e)⟩, db, [.findById id, .save t._id]⟩) ∨
      ∃ ft fd fs, mergeField (body.get "title") t.title = some ft ∧
        mergeField (body.get "description") t.description = some fd ∧
        mergeField (body.get "status") t.status = some fs ∧
        enumValid fs = true ∧
        putTask db id body =
          ⟨⟨200, .task ⟨t._id, ft, fd, fs, t.createdAt⟩⟩,
            updateOne ⟨t._id, ft, fd, fs, t.createdAt⟩ db, [.findById id, .save t._id]⟩ := by
  rcases putDoc_save_cases t body db with ⟨e, he⟩ | ⟨ft, fd, fs, hT, hD, hS, hE, _⟩
  · left
    exact ⟨e, by rw [putTask_found body hid hfind, he, (putDoc_frame t body).1]⟩
  · right
    exact ⟨ft, fd, fs, hT, hD, hS, hE, putTask_ok hid hfind hT hD hS hE⟩

theorem length_updateOne (t : Task) (db : Store) : (updateOne t db).length = db.length := by
  have := congrArg List.length (map_id_updateOne t db)
  simpa using this

theorem getElem_updateOne (t : Task) (db : Store) (k : Nat) (u : Task)
    (hk : db[k]? = some u) (hne : u._id ≠ t._id) : (updateOne t db)[k]? = some u := by
  induction db generalizing k with
  | nil => simp at hk
  | cons v rest ih =>
    cases k with
    | zero =>
      simp only [List.getElem?_cons_zero, Option.some.injEq] at hk
      subst hk
      simp [updateOne, hne]
    | succ k =>
      simp only [List.getElem?_cons_succ] at hk
      unfold updateOne
      split
      · simpa using hk
      · simpa using ih k hk

theorem mem_updateOne {t x : Task} {db : Store} (h : x ∈ updateOne t db) : x = t ∨ x ∈ db := by
  induction db with
  | nil => simp [updateOne] at h
  | cons v rest ih =>
    unfold updateOne at h
    split at h
    · rcases List.mem_cons.1 h with h | h
      · exact Or.inl h
      · exact Or.inr (List.mem_cons_of_mem _ h)
    · rcases List.mem_cons.1 h with h | h
      · exact Or.inr (h ▸ List.mem_cons_self _ _)
      · rcases ih h with h | h
        · exact Or.inl h
        · exact Or.inr (List.mem_cons_of_mem _ h)

theorem mem_deleteOne {oid : ObjectId} {x : Task} {db : Store} (h : x ∈ deleteOne oid db) :
    x ∈ db := by
  induction db with
  | nil => simp [deleteOne] at h
  | cons v rest ih =>
    unfold deleteOne at h
    split at h
    · exact List.mem_cons_of_mem _ h
    · rcases List.mem_cons.1 h with h | h
      · exact h ▸ List.mem_cons_self _ _
      · exact List.mem_cons_of_mem _ (ih h)

theorem findById_updateOne {db : Store} {id : String} {oid : ObjectId} {t u : Task}
    (hid : ObjectId.ofString id = some oid)
    (hfind : db.find? (fun v => v._id = oid) = some t) (hu : u._id = t._id) :
    Task.findById (updateOne u db) id = .ok (some (Task.hydrate u)) := by
  have ht : t._id = oid := find_id_eq hfind
  have hfind2 : db.find? (fun v => v._id = u._id) = some t := by rw [hu, ht]; exact hfind
  have := find_updateOne t u db hfind2
  rw [hu, ht] at this
  rw [findById_of_find hid, this]
  rfl

theorem map_createdAt_updateOne {db : Store} {t u : Task}
    (hfind : db.find? (fun v => v._id = u._id) = some t) (hc : u.createdAt = t.createdAt) :
    (updateOne u db).map Task.createdAt = db.map Task.createdAt := by
  induction db with
  | nil => rfl
  | cons v rest ih =>
    by_cases hv : v._id = u._id
    · simp only [List.find?_cons, hv, decide_True, Option.some.injEq] at hfind
      subst hfind
      simp [updateOne, hv, hc]
    · simp only [List.find?_cons, hv, decide_False] at hfind
      simp [updateOne, hv, ih hfind]

/-- Claim C3: for every store state and every stored task `t` addressed by `id`,
the update whose body names status "completed" and neither title nor description
answers 200 with `t` in which only the status is replaced by "completed" (title,
description, id and createdAt are the ones of `t`); looking `id` up afterwards
returns that task, and every task with another id stays at its position. -/
theorem putTask_status_only (db : Store) (id : String) (oid : ObjectId) (t : Task)
    (body : Body)
    (hid : ObjectId.ofString id = some oid)
    (hfind : db.find? (fun u => u._id = oid) = some t)
    (hT : body.get "title" = .undefined) (hD : body.get "description" = .undefined)
    (hS : body.get "status" = .str "completed") :
    (putTask db id body).res =
        ⟨200, .task ⟨t._id, t.title, t.description, .str "completed", t.createdAt⟩⟩ ∧
      Task.findById (putTask db id body).store id =
        .ok (some (Task.hydrate
          ⟨t._id, t.title, t.description, .str "completed", t.createdAt⟩)) ∧
      (putTask db id body).store.length = db.length ∧
      ∀ (k : Nat) (u : Task), db[k]? = some u → u._id ≠ t._id →
        (putTask db id body).store[k]? = some u := by
  have hmT : mergeField (body.get "title") t.title = some t.title := by
    rw [hT]; exact mergeField_falsy _ rfl
  have hmD : mergeField (body.get "description") t.description = some t.description := by
    rw [hD]; exact mergeField_falsy _ rfl
  have hmS : mergeField (body.get "status") t.status = some (.str "completed") := by
    rw [hS]; rfl
  have h := putTask_ok hid hfind hmT hmD hmS (by decide)
  rw [h]
  refine ⟨rfl, findById_updateOne hid hfind rfl, length_updateOne _ _, ?_⟩
  intro k u hk hne
  exact getElem_updateOne _ db k u hk hne

theorem putTask_status_only_witness :
    (putTask [taskB, taskA] "aaaaaaaaaaaaaaaaaaaaaaaa" [("status", .str "completed")]).res =
        ⟨200, .task ⟨taskA._id, taskA.title, taskA.description, .str "completed",
          taskA.createdAt⟩⟩ ∧
      Task.findById
          (putTask [taskB, taskA] "aaaaaaaaaaaaaaaaaaaaaaaa"
            [("status", .str "completed")]).store "aaaaaaaaaaaaaaaaaaaaaaaa" =
        .ok (some (Task.hydrate
          ⟨taskA._id, taskA.title, taskA.description, .str "completed", taskA.createdAt⟩)) ∧
      (putTask [taskB, taskA] "aaaaaaaaaaaaaaaaaaaaaaaa"
          [("status", .str "completed")]).store.length = [taskB, taskA].length ∧
      ∀ (k : Nat) (u : Task), [taskB, taskA][k]? = some u → u._id ≠ taskA._id →
        (putTask [taskB, taskA] "aaaaaaaaaaaaaaaaaaaaaaaa"
          [("status", .str "completed")]).store[k]? = some u :=
  putTask_status_only [taskB, taskA] "aaaaaaaaaaaaaaaaaaaaaaaa" oidA taskA
    [("status", .str "completed")] (by decide) (by decide) rfl rfl rfl

/-- Claim C1, refuted as stated: the update of a stored task of title "A" with
the body naming the empty title answers 200 with the title still "A", and the
stored task is unchanged. -/
theorem putTask_empty_title_kept :
    (putTask [taskA] "aaaaaaaaaaaaaaaaaaaaaaaa" [("title", .str "")]).res =
        ⟨200, .task ⟨oidA, .str "A", .str "B", .str "pending", 1⟩⟩ ∧
      (putTask [taskA] "aaaaaaaaaaaaaaaaaaaaaaaa" [("title", .str "")]).store =
        [⟨oidA, .str "A", .str "B", .str "pending", 1⟩] ∧
      (putTask [taskA] "aaaaaaaaaaaaaaaaaaaaaaaa" [("title", .str "")]).res ≠
        ⟨200, .task ⟨oidA, .str "", .str "B", .str "pending", 1⟩⟩ := by
  decide

theorem mergeField_str (s : String) (old : Field) :
    mergeField (.str s) old = some (if s = "" then old else .str s) := by
  by_cases hs : s = ""
  · subst hs
    exact mergeField_falsy old rfl
  · rw [mergeField_truthy old (by simp [JsVal.truthy, hs])]
    simp [castString, hs]

theorem mergeField_of_cast {b : JsVal} (old : Field) (h : castString b ≠ none) :
    ∃ f, mergeField b old = some f := by
  cases hb : b.truthy with
  | true =>
    rw [mergeField_truthy old hb]
    exact Option.ne_none_iff_exists'.1 h
  | false => exact ⟨old, mergeField_falsy old hb⟩

/-- Claim C1, amended: the merge tests truthiness, not presence. For every
stored task `t` addressed by `id` and every update body the answer is 200 or
400, and it is 200 exactly when `title || t.title`, `description ||
t.description` and `status || t.status` all cast to a string and the resulting
status passes the enum validator. Whenever the update is accepted, the returned
task is the one stored under `id`; its title is the supplied value cast to a
string when that value is truthy, and the prior title when the body does not
name title or names a falsy value; likewise for description. A supplied string
`s` is thus stored when it is non-empty, and the empty string keeps the prior
value: the update naming only the title "" of a task with a valid stored status
is answered 200 with the task, and the store, as they were. -/
theorem putTask_truthy_merge (db : Store) (id : String) (oid : ObjectId) (t : Task)
    (body : Body)
    (hid : ObjectId.ofString id = some oid)
    (hfind : db.find? (fun u => u._id = oid) = some t) :
    ((putTask db id body).res.status = 200 ∨ (putTask db id body).res.status = 400) ∧
      ((putTask db id body).res.status = 200 ↔
        (castString ((body.get "title").or t.title.toJs) ≠ none ∧
          castString ((body.get "description").or t.description.toJs) ≠ none ∧
          ∃ fs : Field, castString ((body.get "status").or t.status.toJs) = some fs ∧
            enumValid fs = true)) ∧
      (∀ u : Task, (putTask db id body).res = ⟨200, .task u⟩ →
        Task.findById (putTask db id body).store id = .ok (some (Task.hydrate u)) ∧
        ((body.get "title").truthy = true →
          castString (body.get "title") = some u.title) ∧
        ((body.get "title").truthy = false → u.title = t.title) ∧
        ((body.get "description").truthy = true →
          castString (body.get "description") = some u.description) ∧
        ((body.get "description").truthy = false → u.description = t.description) ∧
        (∀ s : String, body.get "title" = .str s →
          u.title = if s = "" then t.title else .str s) ∧
        (∀ s : String, body.get "description" = .str s →
          u.description = if s = "" then t.description else .str s)) ∧
      (body.get "title" = .str "" → body.get "description" = .undefined →
        body.get "status" = .undefined → enumValid t.status = true →
        (putTask db id body).res = ⟨200, .task t⟩ ∧ (putTask db id body).store = db) := by
  refine ⟨?_, ?_, ?_, ?_⟩
  · rcases putTask_cases body hid hfind with ⟨e, he⟩ | ⟨ft, fd, fs, _, _, _, _, hok⟩
    · right
      rw [he]
    · left
      rw [hok]
  · constructor
    · intro hacc
      rcases putTask_cases body hid hfind with ⟨e, he⟩ | ⟨ft, fd, fs, hT, hD, hS, hE, _⟩
      · rw [he] at hacc
        simp at hacc
      · simp only [mergeField] at hT hD hS
        refine ⟨?_, ?_, fs, hS, hE⟩
        · rw [hT]
          simp
        · rw [hD]
          simp
    · rintro ⟨hT, hD, fs, hS, hE⟩
      obtain ⟨ft, hft⟩ := Option.ne_none_iff_exists'.1 hT
      obtain ⟨fd, hfd⟩ := Option.ne_none_iff_exists'.1 hD
      rw [putTask_ok hid hfind hft hfd hS hE]
  · intro u hu
    rcases putTask_cases body hid hfind with ⟨e, he⟩ | ⟨ft, fd, fs, hft, hfd, _, _, hok⟩
    · rw [he] at hu
      simp at hu
    · rw [hok] at hu ⊢
      simp only [Response.mk.injEq, ResBody.task.injEq, true_and] at hu
      subst hu
      refine ⟨findById_updateOne hid hfind rfl, ?_, ?_, ?_, ?_, ?_, ?_⟩
      · intro htr
        rw [mergeField_truthy _ htr] at hft
        exact hft
      · intro hfa
        rw [mergeField_falsy _ hfa] at hft
        exact (Option.some.inj hft).symm
      · intro htr
        rw [mergeField_truthy _ htr] at hfd
        exact hfd
      · intro hfa
        rw [mergeField_falsy _ hfa] at hfd
        exact (Option.some.inj hfd).symm
      · intro s hs
        rw [hs, mergeField_str] at hft
        exact (Option.some.inj hft).symm
      · intro s hs
        rw [hs, mergeField_str] at hfd
        exact (Option.some.inj hfd).symm
  · intro hT hD hS hE
    have hmT : mergeField (body.get "title") t.title = some t.title := by
      rw [hT]; exact mergeField_falsy _ rfl
    have hmD : mergeField (body.get "description") t.description = some t.description := by
      rw [hD]; exact mergeField_falsy _ rfl
    have hmS : mergeField (body.get "status") t.status = some t.status := by
      rw [hS]; exact mergeField_falsy _ rfl
    have ht : t._id = oid := find_id_eq hfind
    rw [putTask_ok hid hfind hmT hmD hmS hE]
    refine ⟨rfl, ?_⟩
    show updateOne t db = db
    exact updateOne_self (by rw [ht]; exact hfind)

theorem putTask_truthy_merge_witness :
    ((putTask [taskB, taskA] "aaaaaaaaaaaaaaaaaaaaaaaa" mergeBody).res.status = 200 ∨ (putTask [taskB, taskA] "aaaaaaaaaaaaaaaaaaaaaaaa" mergeBody).res.status = 400) ∧
      ((putTask [taskB, taskA] "aaaaaaaaaaaaaaaaaaaaaaaa" mergeBody).res.status = 200 ↔
        (castString ((Body.get mergeBody "title").or taskA.title.toJs) ≠ none ∧
          castString ((Body.get mergeBody "description").or taskA.description.toJs) ≠ none ∧
          ∃ fs : Field, castString ((Body.get mergeBody "status").or taskA.status.toJs) = some fs ∧
            enumValid fs = true)) ∧
      (∀ u : Task, (putTask [taskB, taskA] "aaaaaaaaaaaaaaaaaaaaaaaa" mergeBody).res = ⟨200, .task u⟩ →
        Task.findById (putTask [taskB, taskA] "aaaaaaaaaaaaaaaaaaaaaaaa" mergeBody).store "aaaaaaaaaaaaaaaaaaaaaaaa" = .ok (some (Task.hydrate u)) ∧
        ((Body.get mergeBody "title").truthy = true →
          castString (Body.get mergeBody "title") = some u.title) ∧
        ((Body.get mergeBody "title").truthy = false → u.title = taskA.title) ∧
        ((Body.get mergeBody "description").truthy = true →
          castString (Body.get mergeBody "description") = some u.description) ∧
        ((Body.get mergeBody "description").truthy = false → u.description = taskA.description) ∧
        (∀ s : String, Body.get mergeBody "title" = .str s →
          u.title = if s = "" then taskA.title else .str s) ∧
        (∀ s : String, Body.get mergeBody "description" = .str s →
          u.description = if s = "" then taskA.description else .str s)) ∧
      (Body.get mergeBody "title" = .str "" → Body.get mergeBody "description" = .undefined →
        Body.get mergeBody "status" = .undefined → enumValid taskA.status = true →
        (putTask [taskB, taskA] "aaaaaaaaaaaaaaaaaaaaaaaa" mergeBody).res = ⟨200, .task taskA⟩ ∧ (putTask [taskB, taskA] "aaaaaaaaaaaaaaaaaaaaaaaa" mergeBody).store = [taskB, taskA]) :=
  putTask_truthy_merge [taskB, taskA] "aaaaaaaaaaaaaaaaaaaaaaaa" oidA taskA mergeBody
    (by decide) (by decide)

/-- Claim C9: for every stored task `t` addressed by `id` and every update body,
whether the update is accepted or rejected, the store afterwards holds the same
ids and the same createdAt values at the same positions, the task found under
`id` has the id and createdAt of `t`, and a task returned in the response has
them too. -/
theorem putTask_keeps_id_createdAt (db : Store) (id : String) (oid : ObjectId) (t : Task)
    (body : Body)
    (hid : ObjectId.ofString id = some oid)
    (hfind : db.find? (fun u => u._id = oid) = some t) :
    (putTask db id body).store.map Task._id = db.map Task._id ∧
      (putTask db id body).store.map Task.createdAt = db.map Task.createdAt ∧
      (∃ u : Task, (putTask db id body).store.find? (fun v => v._id = oid) = some u ∧
        u._id = t._id ∧ u.createdAt = t.createdAt) ∧
      (∀ r : Task, (putTask db id body).res.body = .task r →
        r._id = t._id ∧ r.createdAt = t.createdAt) := by
  have ht : t._id = oid := find_id_eq hfind
  rcases putTask_cases body hid hfind with ⟨e, he⟩ | ⟨ft, fd, fs, _, _, _, _, hok⟩
  · rw [he]
    refine ⟨rfl, rfl, ⟨t, hfind, rfl, rfl⟩, ?_⟩
    intro r hr
    simp at hr
  · rw [hok]
    have hfind2 : db.find? (fun v => v._id = (⟨t._id, ft, fd, fs, t.createdAt⟩ : Task)._id) =
        some t := by
      show db.find? (fun v => v._id = t._id) = some t
      rw [ht]; exact hfind
    refine ⟨map_id_updateOne _ db, map_createdAt_updateOne hfind2 rfl, ?_, ?_⟩
    · refine ⟨⟨t._id, ft, fd, fs, t.createdAt⟩, ?_, rfl, rfl⟩
      have := find_updateOne t ⟨t._id, ft, fd, fs, t.createdAt⟩ db hfind2
      rw [← ht]
      exact this
    · intro r hr
      simp only [ResBody.task.injEq] at hr
      subst hr
      exact ⟨rfl, rfl⟩

theorem putTask_keeps_id_createdAt_witness :
    (putTask [taskA] "aaaaaaaaaaaaaaaaaaaaaaaa"
        [("_id", .str "x"), ("createdAt", .num false "7"), ("title", .str "T")]).store.map Task._id =
        [taskA].map Task._id ∧
      (putTask [taskA] "aaaaaaaaaaaaaaaaaaaaaaaa"
        [("_id", .str "x"), ("createdAt", .num false "7"), ("title", .str "T")]).store.map
          Task.createdAt = [taskA].map Task.createdAt ∧
      (∃ u : Task, (putTask [taskA] "aaaaaaaaaaaaaaaaaaaaaaaa"
        [("_id", .str "x"), ("createdAt", .num false "7"), ("title", .str "T")]).store.find?
          (fun v => v._id = oidA) = some u ∧
        u._id = taskA._id ∧ u.createdAt = taskA.createdAt) ∧
      (∀ r : Task, (putTask [taskA] "aaaaaaaaaaaaaaaaaaaaaaaa"
        [("_id", .str "x"), ("createdAt", .num false "7"), ("title", .str "T")]).res.body = .task r →
        r._id = taskA._id ∧ r.createdAt = taskA.createdAt) :=
  putTask_keeps_id_createdAt [taskA] "aaaaaaaaaaaaaaaaaaaaaaaa" oidA taskA
    [("_id", .str "x"), ("createdAt", .num false "7"), ("title", .str "T")] (by decide) (by decide)

theorem putTask_malformed (db : Store) {id : String} (body : Body)
    (hid : ObjectId.ofString id = none) :
    putTask db id body =
      ⟨⟨400, .message (.ofError (.castObjectId id))⟩, db, [.findById id]⟩ := by
  simp [putTask, Task.findById, hid]

theorem putTask_missing {db : Store} {id : String} {oid : ObjectId} (body : Body)
    (hid : ObjectId.ofString id = some oid)
    (hnone : db.find? (fun u => u._id = oid) = none) :
    putTask db id body =
      ⟨⟨404, .message (.text "Task not found")⟩, db, [.findById id]⟩ := by
  simp only [putTask, findById_not_found hid hnone]

/-- Claim C10: for every store state, id and update body, a second
`PUT /api/tasks/:id` with the same body, made on the store the first one left,
leaves that store as it is and gives the same response as the first. -/
theorem putTask_idempotent (db : Store) (id : String) (body : Body) :
    (putTask (putTask db id body).store id body).store = (putTask db id body).store ∧
      (putTask (putTask db id body).store id body).res = (putTask db id body).res := by
  cases hid : ObjectId.ofString id with
  | none =>
    rw [putTask_malformed db body hid, putTask_malformed db body hid]
    exact ⟨rfl, rfl⟩
  | some oid =>
    cases hfind : db.find? (fun u => u._id = oid) with
    | none =>
      rw [putTask_missing body hid hfind, putTask_missing body hid hfind]
      exact ⟨rfl, rfl⟩
    | some t =>
      rcases putTask_cases body hid hfind with ⟨e, he⟩ | ⟨ft, fd, fs, hT, hD, hS, hE, hok⟩
      · rw [he]
        simp only
        rw [he]
        exact ⟨rfl, rfl⟩
      · have ht : t._id = oid := find_id_eq hfind
        have hfind2 : db.find? (fun v => v._id = (⟨t._id, ft, fd, fs, t.createdAt⟩ : Task)._id) =
            some t := by
          show db.find? (fun v => v._id = t._id) = some t
          rw [ht]; exact hfind
        have hfind3 : (updateOne ⟨t._id, ft, fd, fs, t.createdAt⟩ db).find?
            (fun v => v._id = oid) = some ⟨t._id, ft, fd, fs, t.createdAt⟩ := by
          have := find_updateOne t ⟨t._id, ft, fd, fs, t.createdAt⟩ db hfind2
          rw [← ht]
          exact this
        have hsecond := putTask_ok hid hfind3
          (mergeField_idem hT) (mergeField_idem hD) (mergeField_idem hS) hE
        rw [hok]
        simp only
        rw [hsecond]
        exact ⟨updateOne_idem _ db, rfl⟩

/-! ## The status domain -/

theorem enumValid_iff (f : Field) :
    enumValid f = true ↔ f = .undefined ∨ f = .str "pending" ∨ f = .str "completed" := by
  cases f with
  | undefined => simp [enumValid]
  | null => simp [enumValid]
  | str s => simp [enumValid, taskSchema.statusEnum]

theorem enumValid_of_truthy {v : JsVal} {f : Field} (hv : v.truthy = true)
    (hc : castString v = some f) (hE : enumValid f = true) :
    f = .str "pending" ∨ f = .str "completed" := by
  obtain ⟨s, rfl⟩ := castString_truthy_str hv hc
  rcases (enumValid_iff _).1 hE with h | h | h
  · cases h
  · exact Or.inl h
  · exact Or.inr h

theorem new_status (gen : ObjectId) (now : Int) (a b : JsVal) :
    (Task.new gen now a b).status = .str "pending" ∧ (Task.new gen now a b).isNew = true := by
  simp only [Task.new, Doc.setTitle, Doc.setDescription]
  repeat' split
  all_goals exact ⟨rfl, rfl⟩

theorem new_id (gen : ObjectId) (now : Int) (a b : JsVal) :
    (Task.new gen now a b)._id = gen := by
  simp only [Task.new, Doc.setTitle, Doc.setDescription]
  repeat' split
  all_goals rfl

theorem postTask_store (db : Store) (gen : ObjectId) (now : Int) (body : Body) :
    (postTask db gen now body).store = db ∨
      ∃ t : Task, t.status = .str "pending" ∧ t._id = gen ∧ gen ∉ db.map Task._id ∧
        (postTask db gen now body).store = db ++ [t] := by
  simp only [postTask]
  split
  · next newTask db2 heq =>
    right
    have hn := new_status gen now (body.get "title") (body.get "description")
    have hi := new_id gen now (body.get "title") (body.get "description")
    simp only [Doc.save, hn.2, if_true] at heq
    split at heq
    · cases heq
    · split at heq
      · cases heq
      · next hfresh =>
        simp only [Except.ok.injEq, Prod.mk.injEq] at heq
        rw [hi] at hfresh
        exact ⟨_, hn.1, hi, hfresh, heq.2.symm⟩
  · left
    rfl

theorem deleteTask_store_subset (db : Store) (id : String) :
    ∀ x ∈ (deleteTask db id).store, x ∈ db := by
  intro x hx
  simp only [deleteTask] at hx
  split at hx
  · exact hx
  · split at hx
    · exact hx
    · exact hx
    · split at hx
      · exact hx
      · next db2 heq =>
        simp only [Task.findByIdAndDelete] at heq
        split at heq
        · cases heq
        · simp only [Except.ok.injEq] at heq
          subst heq
          exact mem_deleteOne hx

theorem putTask_store_status (db : Store) (id : String) (body : Body)
    (hdb : ∀ t ∈ db, t.status = .str "pending" ∨ t.status = .str "completed") :
    ∀ x ∈ (putTask db id body).store,
      x.status = .str "pending" ∨ x.status = .str "completed" := by
  intro x hx
  cases hid : ObjectId.ofString id with
  | none =>
    rw [putTask_malformed db body hid] at hx
    exact hdb x hx
  | some oid =>
    cases hfind : db.find? (fun u => u._id = oid) with
    | none =>
      rw [putTask_missing body hid hfind] at hx
      exact hdb x hx
    | some t =>
      rcases putTask_cases body hid hfind with ⟨e, he⟩ | ⟨ft, fd, fs, _, _, hS, hE, hok⟩
      · rw [he] at hx
        exact hdb x hx
      · rw [hok] at hx
        rcases mem_updateOne hx with rfl | hmem
        · show fs = .str "pending" ∨ fs = .str "completed"
          cases hb : (body.get "status").truthy with
          | true =>
            rw [mergeField_truthy _ hb] at hS
            exact enumValid_of_truthy hb hS hE
          | false =>
            rw [mergeField_falsy _ hb] at hS
            rw [← Option.some.inj hS]
            exact hdb t (List.mem_of_find?_eq_some hfind)
        · exact hdb x hmem

theorem reachable_status {db : Store} (h : Reachable db) :
    ∀ t ∈ db, t.status = .str "pending" ∨ t.status = .str "completed" := by
  induction h with
  | empty =>
    intro t ht
    simp at ht
  | post db gen now body _ ih =>
    intro x hx
    rcases postTask_store db gen now body with hs | ⟨t, hst, _, _, hs⟩
    · rw [hs] at hx
      exact ih x hx
    · rw [hs] at hx
      rcases List.mem_append.1 hx with hmem | hmem
      · exact ih x hmem
      · rw [List.mem_singleton] at hmem
        subst hmem
        exact Or.inl hst
  | put db id body _ ih => exact putTask_store_status db id body ih
  | delete db id _ ih =>
    intro x hx
    exact ih x (deleteTask_store_subset db id x hx)

theorem deleteOne_sublist (oid : ObjectId) (db : Store) : (deleteOne oid db).Sublist db := by
  induction db with
  | nil => exact List.Sublist.slnil
  | cons v rest ih =>
    unfold deleteOne
    split
    · exact List.sublist_cons_self v rest
    · exact ih.cons₂ v

theorem deleteTask_store_sublist (db : Store) (id : String) :
    (deleteTask db id).store.Sublist db := by
  simp only [deleteTask]
  split
  · exact List.Sublist.refl db
  · split
    · exact List.Sublist.refl db
    · exact List.Sublist.refl db
    · split
      · exact List.Sublist.refl db
      · next db2 heq =>
        simp only [Task.findByIdAndDelete] at heq
        split at heq
        · cases heq
        · simp only [Except.ok.injEq] at heq
          subst heq
          exact deleteOne_sublist _ db

theorem putTask_map_id (db : Store) (id : String) (body : Body) :
    (putTask db id body).store.map Task._id = db.map Task._id := by
  cases hid : ObjectId.ofString id with
  | none => rw [putTask_malformed db body hid]
  | some oid =>
    cases hfind : db.find? (fun u => u._id = oid) with
    | none => rw [putTask_missing body hid hfind]
    | some t =>
      rcases putTask_cases body hid hfind with ⟨e, he⟩ | ⟨ft, fd, fs, _, _, _, _, hok⟩
      · rw [he]
      · rw [hok]
        exact map_id_updateOne _ db

theorem reachable_nodup {db : Store} (h : Reachable db) : (db.map Task._id).Nodup := by
  induction h with
  | empty => exact List.nodup_nil
  | post db gen now body _ ih =>
    rcases postTask_store db gen now body with hs | ⟨t, _, hid, hfresh, hs⟩
    · rw [hs]
      exact ih
    · rw [hs, List.map_append, List.map_singleton, hid]
      refine List.Nodup.append ih (List.nodup_singleton gen) ?_
      intro x hx hx2
      rw [List.mem_singleton] at hx2
      exact hfresh (hx2 ▸ hx)
  | put db id body _ ih =>
    rw [putTask_map_id]
    exact ih
  | delete db id _ ih =>
    exact List.Nodup.sublist ((deleteTask_store_sublist db id).map Task._id) ih

/-- Claim C8, refuted as stated: in the reachable store holding one pending task,
the update whose body names the status "" (a value outside the enum) is answered
200, not 400. -/
theorem putTask_empty_status_accepted :
    Reachable (postTask [] oidA 1 [("title", .str "A"), ("description", .str "B")]).store ∧
      (postTask [] oidA 1 [("title", .str "A"), ("description", .str "B")]).store = [taskA] ∧
      "" ∉ taskSchema.statusEnum ∧
      (putTask [taskA] "aaaaaaaaaaaaaaaaaaaaaaaa" [("status", .str "")]).res =
        ⟨200, .task taskA⟩ ∧
      (putTask [taskA] "aaaaaaaaaaaaaaaaaaaaaaaa" [("status", .str "")]).res.status ≠ 400 :=
  ⟨Reachable.post [] oidA 1 [("title", .str "A"), ("description", .str "B")] Reachable.empty,
    by decide, by decide, by decide, by decide⟩

/-- Claim C8, amended: in every store state reachable from the empty store by
create, update and delete requests, every stored status is "pending" or
"completed". For a stored task addressed by `id`, an update whose body names a
truthy status that does not cast to one of these two values is answered 400 and
leaves the store as it was; an update whose body names only a falsy status (or
none) is answered 200 with the task as it was, and the store is unchanged. -/
theorem status_invariant (db : Store) (h : Reachable db) :
    (∀ t ∈ db, t.status = .str "pending" ∨ t.status = .str "completed") ∧
      (∀ (id : String) (oid : ObjectId) (t : Task) (body : Body),
        ObjectId.ofString id = some oid → db.find? (fun u => u._id = oid) = some t →
        (body.get "status").truthy = true →
        castString (body.get "status") ≠ some (.str "pending") →
        castString (body.get "status") ≠ some (.str "completed") →
        (putTask db id body).res.status = 400 ∧ (putTask db id body).store = db) ∧
      (∀ (id : String) (oid : ObjectId) (t : Task) (body : Body),
        ObjectId.ofString id = some oid → db.find? (fun u => u._id = oid) = some t →
        (body.get "status").truthy = false →
        body.get "title" = .undefined → body.get "description" = .undefined →
        (putTask db id body).res = ⟨200, .task t⟩ ∧ (putTask db id body).store = db) := by
  refine ⟨reachable_status h, ?_, ?_⟩
  · intro id oid t body hid hfind htr hp hc
    rcases putTask_cases body hid hfind with ⟨e, he⟩ | ⟨ft, fd, fs, _, _, hS, hE, _⟩
    · rw [he]
      exact ⟨rfl, rfl⟩
    · rw [mergeField_truthy _ htr] at hS
      rcases enumValid_of_truthy htr hS hE with hfs | hfs
      · exact absurd (hfs ▸ hS) hp
      · exact absurd (hfs ▸ hS) hc
  · intro id oid t body hid hfind hfa hT hD
    have hst := reachable_status h t (List.mem_of_find?_eq_some hfind)
    have hE : enumValid t.status = true := by
      rcases hst with hs | hs <;> rw [hs] <;> decide
    have hmT : mergeField (body.get "title") t.title = some t.title := by
      rw [hT]; exact mergeField_falsy _ rfl
    have hmD : mergeField (body.get "description") t.description = some t.description := by
      rw [hD]; exact mergeField_falsy _ rfl
    have hok := putTask_ok hid hfind hmT hmD (mergeField_falsy t.status hfa) hE
    have ht : t._id = oid := find_id_eq hfind
    rw [hok]
    refine ⟨rfl, ?_⟩
    show updateOne t db = db
    exact updateOne_self (by rw [ht]; exact hfind)

theorem status_invariant_witness :
    (∀ t ∈ (postTask [] oidA 1 [("title", .str "A"), ("description", .str "B")]).store,
        t.status = .str "pending" ∨ t.status = .str "completed") ∧
      (∀ (id : String) (oid : ObjectId) (t : Task) (body : Body),
        ObjectId.ofString id = some oid →
        (postTask [] oidA 1 [("title", .str "A"), ("description", .str "B")]).store.find?
          (fun u => u._id = oid) = some t →
        (body.get "status").truthy = true →
        castString (body.get "status") ≠ some (.str "pending") →
        castString (body.get "status") ≠ some (.str "completed") →
        (putTask (postTask [] oidA 1 [("title", .str "A"), ("description", .str "B")]).store
            id body).res.status = 400 ∧
          (putTask (postTask [] oidA 1 [("title", .str "A"), ("description", .str "B")]).store
            id body).store =
            (postTask [] oidA 1 [("title", .str "A"), ("description", .str "B")]).store) ∧
      (∀ (id : String) (oid : ObjectId) (t : Task) (body : Body),
        ObjectId.ofString id = some oid →
        (postTask [] oidA 1 [("title", .str "A"), ("description", .str "B")]).store.find?
          (fun u => u._id = oid) = some t →
        (body.get "status").truthy = false →
        body.get "title" = .undefined → body.get "description" = .undefined →
        (putTask (postTask [] oidA 1 [("title", .str "A"), ("description", .str "B")]).store
            id body).res = ⟨200, .task t⟩ ∧
          (putTask (postTask [] oidA 1 [("title", .str "A"), ("description", .str "B")]).store
            id body).store =
            (postTask [] oidA 1 [("title", .str "A"), ("description", .str "B")]).store) :=
  status_invariant (postTask [] oidA 1 [("title", .str "A"), ("description", .str "B")]).store
    (Reachable.post [] oidA 1 [("title", .str "A"), ("description", .str "B")] Reachable.empty)

end Todoist
